import Mathlib

/-!
Verification of the KACCP media-worker core (job registry and audio
segmentation pipeline) against its specification.  The Python source is
shallowly embedded: timestamps and progress values are rationals, UUIDs
are naturals, the in-memory job dictionary is a function from ids to
optional job records, and each registry method becomes a pure state
transformer.  External process invocations are modelled by their
observable outcomes (exit code, parsed output, or timeout).
-/

namespace KACCP

/-- Result stored on a completed job (models.py, `JobResult`). -/
structure JobResult where
  chunks : List String
  total_duration_sec : Option ℚ
  chunk_seconds : Option Int
deriving DecidableEq, Repr

/-- One job record (jobs.py, `Job` dataclass).  UUIDs are modelled as
naturals; `progress` is a rational. -/
structure Job where
  job_id : Nat
  source_id : String
  status : String := "queued"
  progress : ℚ := 0
  message : Option String := none
  result : Option JobResult := none
  chunk_seconds : Option Int := none
  webhook_url : Option String := none
deriving DecidableEq, Repr

/-- The registry's internal map `self._jobs` (jobs.py, `JobStore`). -/
def JobStore := Nat → Option Job

/-- A fresh `JobStore()`: no jobs. -/
def emptyStore : JobStore := fun _ => none

/-- Store `j` under `id`, keeping every other entry. -/
def setJob (s : JobStore) (id : Nat) (j : Job) : JobStore :=
  fun id2 => if id2 = id then some j else s id2

/-- Python truthiness of the optional `msg` argument: `if msg:` is false
for `None` and for the empty string. -/
def truthy : Option String → Bool
  | none => false
  | some s => s != ""

/-- One registry operation (the public methods of jobs.py `JobStore`).
`create` carries the fresh uuid chosen by `uuid4()`. -/
inductive StoreOp where
  | create (job_id : Nat) (source_id : String)
      (chunk_seconds : Option Int) (webhook_url : Option String)
  | set_running (job_id : Nat) (msg : Option String)
  | update_progress (job_id : Nat) (progress : ℚ) (msg : Option String)
  | complete (job_id : Nat) (chunks : List String)
      (total_duration_sec : Option ℚ) (chunk_seconds : Option Int)
  | fail (job_id : Nat) (error : String)

/-- Effect of one registry method on the job map, line for line from
jobs.py: every mutating method looks the id up and is a no-op when the
job is absent; none of them inspects the current status before writing. -/
def applyOp (s : JobStore) : StoreOp → JobStore
  | .create id src cs wh =>
      setJob s id { job_id := id, source_id := src, chunk_seconds := cs, webhook_url := wh }
  | .set_running id msg =>
      match s id with
      | none => s
      | some j => setJob s id
          { j with status := "running",
                   message := if truthy msg then msg else j.message }
  | .update_progress id p msg =>
      match s id with
      | none => s
      | some j => setJob s id
          { j with progress := max 0 (min 1 p),
                   message := if truthy msg then msg else j.message }
  | .complete id chunks td cs =>
      match s id with
      | none => s
      | some j => setJob s id
          { j with status := "completed", progress := 1,
                   result := some ⟨chunks, td, cs⟩ }
  | .fail id err =>
      match s id with
      | none => s
      | some j => setJob s id { j with status := "failed", message := some err }

/-- A store reached from the empty store by a sequence of operations. -/
def runOps (ops : List StoreOp) : JobStore := ops.foldl applyOp emptyStore

/-- The spec's record invariant: `result` is set iff the job completed. -/
def storeInv (s : JobStore) : Prop :=
  ∀ id j, s id = some j → (j.result ≠ none ↔ j.status = "completed")

/-- Stores reachable by operation sequences that never apply
`set_running` or `fail` to a job that is already completed (the
discipline the orchestrator follows: a terminal write is the last write). -/
inductive SafeReach : JobStore → Prop where
  | empty : SafeReach emptyStore
  | create (s : JobStore) (id : Nat) (src : String) (cs : Option Int)
      (wh : Option String) : SafeReach s →
      SafeReach (applyOp s (.create id src cs wh))
  | set_running (s : JobStore) (id : Nat) (m : Option String) :
      SafeReach s → (s id).map Job.status ≠ some "completed" →
      SafeReach (applyOp s (.set_running id m))
  | update_progress (s : JobStore) (id : Nat) (p : ℚ) (m : Option String) :
      SafeReach s → SafeReach (applyOp s (.update_progress id p m))
  | complete (s : JobStore) (id : Nat) (chunks : List String)
      (td : Option ℚ) (cs : Option Int) : SafeReach s →
      SafeReach (applyOp s (.complete id chunks td cs))
  | fail (s : JobStore) (id : Nat) (e : String) :
      SafeReach s → (s id).map Job.status ≠ some "completed" →
      SafeReach (applyOp s (.fail id e))

/-
Pipeline embedding (pipeline.py).

`run_cmd_stream` runs an external process: on normal completion it
returns the exit code and the captured output; when the per-invocation
timeout elapses it kills the process and re-raises `asyncio.TimeoutError`
to its caller.  An invocation of the probe tool is therefore observed by
`ffprobe_duration` either as a completed process (exit code plus the
result of `float(out.strip())`, modelled as an optional rational since
the parse may fail) or as a propagated timeout exception.
-/

/-- Observable behaviour of one probe-process invocation.  `parsed` is
the result of parsing the stripped stdout as a number (`none` when the
text does not parse). -/
inductive ProbeProc where
  | done (code : Int) (parsed : Option ℚ)
  | timedOut
deriving DecidableEq, Repr

/-- pipeline.py `ffprobe_duration`: the `run_cmd_stream` call sits outside
the `try` block, so a timeout raised by `run_cmd_stream` propagates;
after normal completion, a nonzero exit code or an unparsable stdout
yields `None`. -/
def ffprobe_duration : ProbeProc → Except String (Option ℚ)
  | .timedOut => .error "asyncio.TimeoutError"
  | .done code parsed => if code = 0 then .ok parsed else .ok none

/-- pipeline.py line 216: `[s[0] for s in silences] + [s[1] for s in
silences]` — all interval starts in detection order, then all interval
ends in detection order.  Note: not sorted. -/
def silence_points (silences : List (ℚ × ℚ)) : List ℚ :=
  silences.map Prod.fst ++ silences.map Prod.snd

/-- The spec's claimed candidate list (spec 4.4 step 3): the boundary
timestamps flattened into one ascending list.  Declared only to compare
the claim's wording against the code's `silence_points`. -/
def silence_points_claimed (silences : List (ℚ × ℚ)) : List ℚ :=
  (silence_points silences).insertionSort (· ≤ ·)

/-- One iteration's cut choice (pipeline.py lines 224-234): the first
point of `points` inside `[current + minLen, current + maxLen]`, else
`min (current + maxLen) duration`. -/
def chunkCut (points : List ℚ) (minLen maxLen duration current : ℚ) : ℚ :=
  match points.find? (fun sp => decide (current + minLen ≤ sp ∧ sp ≤ current + maxLen)) with
  | some sp => sp
  | none => min (current + maxLen) duration

/-- The same cut choice computed over the spec's claimed ascending
candidate list instead of the code's unsorted one. -/
def chunkCutClaimed (silences : List (ℚ × ℚ)) (minLen maxLen duration current : ℚ) : ℚ :=
  chunkCut (silence_points_claimed silences) minLen maxLen duration current

/-- The chunking `while current_start < duration` loop (pipeline.py lines
223-255), with explicit fuel because the source loop need not terminate
for every parameter choice.  Returns the `(start, cut)` interval of each
produced segment, in order; `none` means the fuel ran out before the
loop condition turned false. -/
def chunkLoop (points : List ℚ) (minLen maxLen duration : ℚ) :
    Nat → ℚ → Option (List (ℚ × ℚ))
  | 0, _ => none
  | fuel + 1, current =>
      if current < duration then
        match chunkLoop points minLen maxLen duration fuel
            (chunkCut points minLen maxLen duration current) with
        | some rest => some ((current, chunkCut points minLen maxLen duration current) :: rest)
        | none => none
      else some []

/-- `actual_durations` of pipeline.py: each segment's realized duration
`cut - current_start`. -/
def actualDurations (segs : List (ℚ × ℚ)) : List ℚ :=
  segs.map fun s => s.2 - s.1

/-- pipeline.py `normalize_and_chunk` after a successful normalization
and silence detection (the claims about it are conditioned on those
process invocations succeeding): probe the duration of the normalized
file — raising `RuntimeError("Could not probe audio duration")` when it
is unavailable — then run the chunking loop with `min_len =
chunk_seconds - 5` and `max_len = chunk_seconds` from `current_start =
0`.  There is no emptiness check on the produced chunk list. -/
def normalize_and_chunk (duration? : Option ℚ) (silences : List (ℚ × ℚ))
    (chunk_seconds : Int) (fuel : Nat) : Except String (List (ℚ × ℚ)) :=
  match duration? with
  | none => .error "Could not probe audio duration"
  | some duration =>
      match chunkLoop (silence_points silences) ((chunk_seconds : ℚ) - 5)
          (chunk_seconds : ℚ) duration fuel 0 with
      | some segs => .ok segs
      | none => .error "loop fuel exhausted"

/-
Fetcher embedding (pipeline.py `download_youtube`).  One invocation of
the external fetch tool is observed as: success (exit 0 and a .wav file
found in the working directory), exit 0 without a wav file, a nonzero
exit, or a timeout of the per-attempt deadline.
-/

/-- Observable outcome of one fetch-tool invocation attempt. -/
inductive Attempt where
  | ok
  | okNoWav
  | exitErr (code : Int) (errTail : String)
  | timeout (seconds : Int)
deriving DecidableEq, Repr

/-- The `last_err` value a failed attempt records (`none` for a
successful attempt), with the message text of pipeline.py. -/
def attemptErr : Attempt → Option String
  | .ok => none
  | .okNoWav => some "yt-dlp reported success but output wav not found"
  | .exitErr code errTail =>
      some ("yt-dlp exit=" ++ toString code ++ " err_tail=" ++ errTail)
  | .timeout seconds => some ("yt-dlp timed out after " ++ toString seconds ++ "s")

/-- Trace of one `download_youtube` run: attempts made, the backoff
sleeps performed (seconds, in order), and the outcome —
`Except.error last_err` models the final `RuntimeError` carrying the
last observed failure reason. -/
structure FetchTrace where
  attemptsMade : Nat
  sleeps : List Nat
  outcome : Except (Option String) Unit
deriving Repr

/-- The `for attempt in range(1, attempts + 1)` loop of
`download_youtube` (pipeline.py lines 95-115): a successful attempt
returns at once; a failed attempt records `last_err` and then sleeps
`2 * attempt` seconds — the sleep also runs after the final failed
attempt; exhausting all attempts raises with the last error. -/
def fetchLoop (behavior : Nat → Attempt) (attempt : Nat) :
    Nat → Option String → List Nat → Nat → FetchTrace
  | 0, lastErr, sleeps, made => ⟨made, sleeps, .error lastErr⟩
  | remaining + 1, _, sleeps, made =>
      match attemptErr (behavior attempt) with
      | none => ⟨made + 1, sleeps, .ok ()⟩
      | some e =>
          fetchLoop behavior (attempt + 1) remaining (some e)
            (sleeps ++ [2 * attempt]) (made + 1)

/-- pipeline.py `download_youtube`: `attempts = max(1, min(10,
settings.yt_retries))`, then the retry loop starting at attempt 1. -/
def download_youtube (behavior : Nat → Attempt) (retries : Int) : FetchTrace :=
  fetchLoop behavior 1 (max 1 (min 10 retries)).toNat none [] 0

/-
Orchestrator embedding (main.py `_run_job`), happy path: fetch, probe,
normalization/chunking and every per-segment upload succeed.  The upload
of a local chunk path is modelled by a function from path to storage
address.  Alongside the final store we collect the trace of every
`update_progress` call (progress value and message) in order.
-/

/-- main.py line 77: `js.chunk_seconds if js and js.chunk_seconds else
settings.chunk_seconds` — Python falsiness makes a missing job, a `None`
and a `0` chunk_seconds all fall back to the configured default. -/
def resolveChunkSeconds (j? : Option Job) (defaultCs : Int) : Int :=
  match j? with
  | none => defaultCs
  | some j =>
      match j.chunk_seconds with
      | none => defaultCs
      | some c => if c = 0 then defaultCs else c

/-- Progress value reported after the idx-th upload (main.py line 94):
`0.1 + 0.89 * (idx / max(1, total))`. -/
def uploadProgress (idx total : Nat) : ℚ :=
  1/10 + 89/100 * ((idx : ℚ) / ((max 1 total : Nat) : ℚ))

/-- Message reported after the idx-th upload. -/
def uploadMsg (idx total : Nat) : String :=
  "uploaded " ++ toString idx ++ "/" ++ toString total

/-- The per-segment upload loop of `_run_job` (main.py lines 87-97):
upload each chunk, collect its address, and report progress after each
one.  Returns the store after the loop's updates, the addresses in
order, and the trace of progress updates made. -/
def uploadLoop (id : Nat) (f : String → String) (total : Nat) :
    List String → Nat → JobStore → JobStore × List String × List (ℚ × String)
  | [], _, s => (s, [], [])
  | p :: rest, idx, s =>
      let s2 := applyOp s (.update_progress id (uploadProgress idx total)
        (some (uploadMsg idx total)))
      let r := uploadLoop id f total rest (idx + 1) s2
      (r.1, f p :: r.2.1, (uploadProgress idx total, uploadMsg idx total) :: r.2.2)

/-- The store after `set_running("downloading from YouTube")` and the
0.10 "download complete" update — the point at which `_run_job` reads
the job back to resolve `chunk_seconds`. -/
def storeAfterFetch (s : JobStore) (id : Nat) : JobStore :=
  applyOp (applyOp s (.set_running id (some "downloading from YouTube")))
    (.update_progress id (1/10) (some "download complete"))

/-- main.py `_run_job`, happy path: mark running, report 0.10 after the
fetch, resolve chunk_seconds from the store, report 0.15 before
normalizing and 0.50 after chunking, upload every segment with
interpolated progress, then `complete` with the collected addresses, the
probed duration and the chunk length used.  Returns the final store and
the trace of `update_progress` calls. -/
def run_job_happy (s : JobStore) (id : Nat) (total_dur : Option ℚ)
    (segPaths : List String) (f : String → String) (defaultCs : Int) :
    JobStore × List (ℚ × String) :=
  let s2 := storeAfterFetch s id
  let cs := resolveChunkSeconds (s2 id) defaultCs
  let s4 := applyOp (applyOp s2 (.update_progress id (15/100) (some "normalizing audio")))
    (.update_progress id (1/2) (some "chunking complete; uploading"))
  let r := uploadLoop id f segPaths.length segPaths 1 s4
  (applyOp r.1 (.complete id r.2.1 total_dur (some cs)),
   (1/10, "download complete") :: (15/100, "normalizing audio")
     :: (1/2, "chunking complete; uploading") :: r.2.2)

/-- The `update_progress` calls the spec's milestone list prescribes for
a successful run with `n` segments. -/
def expectedTrace (n : Nat) : List (ℚ × String) :=
  (1/10, "download complete") :: (15/100, "normalizing audio")
    :: (1/2, "chunking complete; uploading")
    :: (List.range n).map (fun k => (uploadProgress (k + 1) n, uploadMsg (k + 1) n))

/-
Theorems.
-/

theorem setJob_self (s : JobStore) (id : Nat) (j : Job) : setJob s id j id = some j := by
  simp [setJob]

theorem setJob_other (s : JobStore) (id id2 : Nat) (j : Job) (h : id2 ≠ id) :
    setJob s id j id2 = s id2 := by
  simp [setJob, h]

/-- C2 counterexample: a completed job is moved back to `running` by a
subsequent `set_running`, so terminal states are not absorbing under
every further registry write. -/
theorem C2_terminal_not_absorbing :
    ((runOps [.create 0 "src" none none, .complete 0 ["gs0"] none none]) 0).map Job.status
      = some "completed" ∧
    ((runOps [.create 0 "src" none none, .complete 0 ["gs0"] none none,
              .set_running 0 none]) 0).map Job.status = some "running" :=
  ⟨rfl, rfl⟩

/-- C2 (amended): `update_progress` never changes a job's status, but
`set_running`, `complete` and `fail` overwrite the status of any existing
job unconditionally (to `running`, `completed`, `failed` respectively),
regardless of a terminal current status. -/
theorem C2_status_writes (s : JobStore) (id : Nat) (p : ℚ)
    (m m2 : Option String) (e : String) (chunks : List String)
    (td : Option ℚ) (cs : Option Int) :
    ((applyOp s (.update_progress id p m)) id).map Job.status = (s id).map Job.status ∧
    ((applyOp s (.set_running id m2)) id).map Job.status
      = (s id).map (fun _ => "running") ∧
    ((applyOp s (.complete id chunks td cs)) id).map Job.status
      = (s id).map (fun _ => "completed") ∧
    ((applyOp s (.fail id e)) id).map Job.status
      = (s id).map (fun _ => "failed") := by
  refine ⟨?_, ?_, ?_, ?_⟩ <;> cases h : s id <;> simp [applyOp, h, setJob]

/-- C3 counterexample: `fail` after `complete` leaves `result` set while
the status becomes `failed`, refuting "result non-null iff completed"
over arbitrary operation sequences. -/
theorem C3_result_after_fail :
    ((runOps [.create 0 "src" none none, .complete 0 ["gs0"] none none,
              .fail 0 "boom"]) 0).map Job.status = some "failed" ∧
    ((runOps [.create 0 "src" none none, .complete 0 ["gs0"] none none,
              .fail 0 "boom"]) 0).bind Job.result = some ⟨["gs0"], none, none⟩ :=
  ⟨rfl, rfl⟩

/-- C3 (amended): for every store reachable without applying
`set_running` or `fail` to an already-completed job, every record
satisfies `result ≠ none ↔ status = "completed"`. -/
theorem C3_result_iff_completed (s : JobStore) (h : SafeReach s) : storeInv s := by
  induction h with
  | empty => intro id j hj; exact absurd hj (by simp [emptyStore])
  | create s id src cs wh _ ih =>
      intro id2 j2 hj2
      by_cases hid : id2 = id
      · subst hid
        simp only [applyOp, setJob_self] at hj2
        cases hj2
        exact ⟨fun hres => absurd rfl hres,
          fun hst => absurd hst (show ("queued" : String) ≠ "completed" by decide)⟩
      · simp only [applyOp] at hj2
        rw [setJob_other _ _ _ _ hid] at hj2
        exact ih id2 j2 hj2
  | set_running s id m _ hterm ih =>
      intro id2 j2 hj2
      cases hs : s id with
      | none => simp only [applyOp, hs] at hj2; exact ih id2 j2 hj2
      | some j =>
          simp only [applyOp, hs] at hj2
          by_cases hid : id2 = id
          · subst hid
            rw [setJob_self] at hj2
            cases hj2
            have hjres : j.result = none := by
              have := (ih id2 j hs).not
              simp only [not_not] at this
              exact this.mpr (by rw [hs] at hterm; simpa using hterm)
            simp [hjres]
          · rw [setJob_other _ _ _ _ hid] at hj2
            exact ih id2 j2 hj2
  | update_progress s id p m _ ih =>
      intro id2 j2 hj2
      cases hs : s id with
      | none => simp only [applyOp, hs] at hj2; exact ih id2 j2 hj2
      | some j =>
          simp only [applyOp, hs] at hj2
          by_cases hid : id2 = id
          · subst hid
            rw [setJob_self] at hj2
            cases hj2
            simpa using ih id2 j hs
          · rw [setJob_other _ _ _ _ hid] at hj2
            exact ih id2 j2 hj2
  | complete s id chunks td cs _ ih =>
      intro id2 j2 hj2
      cases hs : s id with
      | none => simp only [applyOp, hs] at hj2; exact ih id2 j2 hj2
      | some j =>
          simp only [applyOp, hs] at hj2
          by_cases hid : id2 = id
          · subst hid
            rw [setJob_self] at hj2
            cases hj2
            simp
          · rw [setJob_other _ _ _ _ hid] at hj2
            exact ih id2 j2 hj2
  | fail s id e _ hterm ih =>
      intro id2 j2 hj2
      cases hs : s id with
      | none => simp only [applyOp, hs] at hj2; exact ih id2 j2 hj2
      | some j =>
          simp only [applyOp, hs] at hj2
          by_cases hid : id2 = id
          · subst hid
            rw [setJob_self] at hj2
            cases hj2
            have hjres : j.result = none := by
              have := (ih id2 j hs).not
              simp only [not_not] at this
              exact this.mpr (by rw [hs] at hterm; simpa using hterm)
            simp [hjres]
          · rw [setJob_other _ _ _ _ hid] at hj2
            exact ih id2 j2 hj2

/-- C3 witness: the invariant holds on the concrete store reached by a
create followed by a complete. -/
theorem C3_result_iff_completed_witness :
    storeInv (applyOp (applyOp emptyStore (.create 0 "src" none none))
      (.complete 0 ["gs0"] none none)) :=
  C3_result_iff_completed _
    (SafeReach.complete _ 0 ["gs0"] none none
      (SafeReach.create _ 0 "src" none none SafeReach.empty))

/-- C9: `fail` on an existing job sets status to `failed` and message to
the error text, and leaves progress, result, job id, source id,
chunk_seconds and webhook_url unchanged. -/
theorem C9_fail_frame (s : JobStore) (id : Nat) (e : String) (j : Job)
    (h : s id = some j) :
    ∃ j2, (applyOp s (.fail id e)) id = some j2 ∧
      j2.status = "failed" ∧ j2.message = some e ∧
      j2.progress = j.progress ∧ j2.result = j.result ∧
      j2.job_id = j.job_id ∧ j2.source_id = j.source_id ∧
      j2.chunk_seconds = j.chunk_seconds ∧ j2.webhook_url = j.webhook_url := by
  refine ⟨{ j with status := "failed", message := some e },
    ?_, rfl, rfl, rfl, rfl, rfl, rfl, rfl, rfl⟩
  simp only [applyOp, h, setJob_self]

/-- C9 witness: `fail` applied to a concrete freshly-created job. -/
theorem C9_fail_frame_witness :
    ∃ j2, (applyOp (runOps [StoreOp.create 0 "src" none none]) (.fail 0 "boom")) 0 = some j2 ∧
      j2.status = "failed" ∧ j2.message = some "boom" ∧
      j2.progress = Job.progress { job_id := 0, source_id := "src" } ∧
      j2.result = Job.result { job_id := 0, source_id := "src" } ∧
      j2.job_id = Job.job_id { job_id := 0, source_id := "src" } ∧
      j2.source_id = Job.source_id { job_id := 0, source_id := "src" } ∧
      j2.chunk_seconds = Job.chunk_seconds { job_id := 0, source_id := "src" } ∧
      j2.webhook_url = Job.webhook_url { job_id := 0, source_id := "src" } :=
  C9_fail_frame _ 0 "boom" { job_id := 0, source_id := "src" } rfl

/-- C7 counterexample: a probe-process timeout is re-raised by
`run_cmd_stream` and is not caught inside `ffprobe_duration`, so the
Prober does raise to its caller in the timeout case. -/
theorem C7_probe_timeout_raises :
    ffprobe_duration .timedOut = .error "asyncio.TimeoutError" := rfl

/-- C7 (amended): for every *completed* probe process — any exit code,
parsable or unparsable output — the Prober returns normally: a nonzero
exit code or a failed parse degrades to `none`, and exit code 0 returns
the parsed value; only a timeout escapes as an exception. -/
theorem C7_probe_completed_returns (code : Int) (parsed : Option ℚ) :
    (∃ v : Option ℚ, ffprobe_duration (.done code parsed) = .ok v) ∧
    (code ≠ 0 → ffprobe_duration (.done code parsed) = .ok none) ∧
    (code = 0 → ffprobe_duration (.done code parsed) = .ok parsed) := by
  refine ⟨?_, fun hne => ?_, fun heq => ?_⟩
  · by_cases hc : code = 0
    · exact ⟨parsed, by simp [ffprobe_duration, hc]⟩
    · exact ⟨none, by simp [ffprobe_duration, hc]⟩
  · simp [ffprobe_duration, hne]
  · simp [ffprobe_duration, heq]

/-- C7 witness: a concrete failed probe (exit code 1) returns `none`
rather than raising. -/
theorem C7_probe_completed_returns_witness :
    ffprobe_duration (.done 1 (some 3)) = .ok none :=
  (C7_probe_completed_returns 1 (some 3)).2.1 (by decide)

/-- Evaluation: the cut of an empty candidate list is the fallback. -/
theorem chunkCut_nil (minLen maxLen duration current : ℚ) :
    chunkCut [] minLen maxLen duration current = min (current + maxLen) duration := rfl

/-- Evaluation: an eligible head point is chosen as the cut. -/
theorem chunkCut_cons_pos {a : ℚ} (t : List ℚ) {minLen maxLen duration current : ℚ}
    (h : current + minLen ≤ a ∧ a ≤ current + maxLen) :
    chunkCut (a :: t) minLen maxLen duration current = a := by
  have hfind : List.find? (fun sp => decide (current + minLen ≤ sp ∧ sp ≤ current + maxLen))
      (a :: t) = some a :=
    List.find?_cons_of_pos t (by simpa using h)
  simp only [chunkCut, hfind]

/-- Evaluation: an ineligible head point is skipped. -/
theorem chunkCut_cons_neg {a : ℚ} (t : List ℚ) {minLen maxLen duration current : ℚ}
    (h : ¬(current + minLen ≤ a ∧ a ≤ current + maxLen)) :
    chunkCut (a :: t) minLen maxLen duration current
      = chunkCut t minLen maxLen duration current := by
  have hfind : List.find? (fun sp => decide (current + minLen ≤ sp ∧ sp ≤ current + maxLen))
      (a :: t)
      = List.find? (fun sp => decide (current + minLen ≤ sp ∧ sp ≤ current + maxLen)) t :=
    List.find?_cons_of_neg t (by simpa using h)
  simp only [chunkCut, hfind]

/-- Helper: `List.find?` returns the first element satisfying the
predicate: either the list splits around the found element, with every
earlier element failing the predicate, or nothing satisfies it. -/
theorem find?_split {α : Type} (p : α → Bool) (l : List α) :
    (∃ l1 x l2, l = l1 ++ x :: l2 ∧ l.find? p = some x ∧ p x = true ∧
        ∀ a ∈ l1, p a = false) ∨
    (l.find? p = none ∧ ∀ a ∈ l, p a = false) := by
  induction l with
  | nil => right; exact ⟨rfl, by simp⟩
  | cons a t ih =>
      cases hp : p a with
      | true =>
          left
          exact ⟨[], a, t, rfl, List.find?_cons_of_pos _ hp, hp, by simp⟩
      | false =>
          rcases ih with ⟨l1, x, l2, heq, hfind, hpx, hl1⟩ | ⟨hnone, hall⟩
          · left
            refine ⟨a :: l1, x, l2, by rw [heq]; rfl, ?_, hpx, ?_⟩
            · rw [List.find?_cons_of_neg _ (by simp [hp])]; exact hfind
            · intro b hb
              rcases List.mem_cons.mp hb with hb | hb
              · subst hb; exact hp
              · exact hl1 b hb
          · right
            refine ⟨?_, ?_⟩
            · rw [List.find?_cons_of_neg _ (by simp [hp])]; exact hnone
            · intro b hb
              rcases List.mem_cons.mp hb with hb | hb
              · subst hb; exact hp
              · exact hall b hb

/-- C5 counterexample: the code's candidate list is the unsorted
concatenation "all starts, then all ends", not the ascending flattening
claimed by the spec, and on silences (10,16), (17,18) with band [15,20]
the code cuts at 17 (first eligible in its unsorted list) while the
claimed ascending scan would cut at 16. -/
theorem C5_candidates_not_ascending :
    silence_points [((10 : ℚ), 16), (17, 18)] = [10, 17, 16, 18] ∧
    silence_points_claimed [((10 : ℚ), 16), (17, 18)] = [10, 16, 17, 18] ∧
    chunkCut (silence_points [((10 : ℚ), 16), (17, 18)]) 15 20 60 0 = 17 ∧
    chunkCutClaimed [((10 : ℚ), 16), (17, 18)] 15 20 60 0 = 16 := by
  refine ⟨rfl, by decide, ?_, ?_⟩
  · show chunkCut [(10 : ℚ), 17, 16, 18] 15 20 60 0 = 17
    rw [chunkCut_cons_neg _ (by norm_num), chunkCut_cons_pos _ (by norm_num)]
  · show chunkCut (silence_points_claimed [((10 : ℚ), 16), (17, 18)]) 15 20 60 0 = 16
    rw [show silence_points_claimed [((10 : ℚ), 16), (17, 18)] = [10, 16, 17, 18] by decide]
    rw [chunkCut_cons_neg _ (by norm_num), chunkCut_cons_pos _ (by norm_num)]

/-- C5 (amended): the candidate cut-point list is the concatenation of
all silence starts (in detection order) followed by all silence ends (in
detection order), without sorting; at each iteration the chosen cut is
the first point of that list, in list order, lying in
`[current + (T-5), current + T]`, and `min (current + T, duration)` when
no listed point lies in the band. -/
theorem C5_first_eligible_cut (silences : List (ℚ × ℚ))
    (minLen maxLen duration current : ℚ) :
    silence_points silences
      = silences.map Prod.fst ++ silences.map Prod.snd ∧
    ((∃ l1 x l2, silence_points silences = l1 ++ x :: l2 ∧
        chunkCut (silence_points silences) minLen maxLen duration current = x ∧
        (current + minLen ≤ x ∧ x ≤ current + maxLen) ∧
        ∀ a ∈ l1, ¬(current + minLen ≤ a ∧ a ≤ current + maxLen)) ∨
      ((∀ a ∈ silence_points silences, ¬(current + minLen ≤ a ∧ a ≤ current + maxLen)) ∧
        chunkCut (silence_points silences) minLen maxLen duration current
          = min (current + maxLen) duration)) := by
  refine ⟨rfl, ?_⟩
  rcases find?_split (fun sp => decide (current + minLen ≤ sp ∧ sp ≤ current + maxLen))
      (silence_points silences) with ⟨l1, x, l2, heq, hfind, hpx, hl1⟩ | ⟨hnone, hall⟩
  · simp only [decide_eq_true_eq] at hpx
    left
    refine ⟨l1, x, l2, heq, ?_, hpx, fun a ha => ?_⟩
    · simp only [chunkCut, hfind]
    · have hfa := hl1 a ha
      simpa [decide_eq_false_iff_not] using hfa
  · right
    refine ⟨fun a ha => ?_, ?_⟩
    · have hfa := hall a ha
      simpa [decide_eq_false_iff_not] using hfa
    · simp only [chunkCut, hnone]

/-- C6 counterexample: a successfully probed 0-second input makes the
chunking loop yield zero segments, and `normalize_and_chunk` returns the
empty list with no "no segments produced" error — no such check exists
in the code. -/
theorem C6_zero_segments_no_error :
    normalize_and_chunk (some 0) [] 20 5 = .ok [] := rfl

/-- C6 (amended): an input whose duration cannot be probed fails with
"Could not probe audio duration", but a probed duration ≤ 0 makes the
loop produce zero segments and the function returns the empty segment
list silently (there is no "no segments produced" failure). -/
theorem C6_degenerate_inputs (silences : List (ℚ × ℚ)) (cs : Int) (fuel : Nat)
    (d : ℚ) (hd : d ≤ 0) (hf : 1 ≤ fuel) :
    normalize_and_chunk none silences cs fuel = .error "Could not probe audio duration" ∧
    normalize_and_chunk (some d) silences cs fuel = .ok [] := by
  refine ⟨rfl, ?_⟩
  obtain ⟨f, rfl⟩ : ∃ f, fuel = f + 1 := ⟨fuel - 1, by omega⟩
  simp only [normalize_and_chunk, chunkLoop, if_neg (not_lt.mpr hd)]

/-- C6 witness: concrete degenerate inputs (unknown duration; 0-second
duration). -/
theorem C6_degenerate_inputs_witness :
    normalize_and_chunk none [] 20 1 = .error "Could not probe audio duration" ∧
    normalize_and_chunk (some 0) [] 20 1 = .ok [] :=
  C6_degenerate_inputs [] 20 1 0 le_rfl le_rfl

/-- C8: a 42-second input with `chunk_seconds = 20` and no detected
silences is cut at 20 and 40, yielding three segments with realized
durations [20, 20, 2]. -/
theorem C8_42s_three_chunks :
    normalize_and_chunk (some 42) [] 20 10
      = .ok [((0 : ℚ), 20), (20, 40), (40, 42)] ∧
    actualDurations [((0 : ℚ), 20), (20, 40), (40, 42)] = [20, 20, 2] := by
  constructor
  · norm_num [normalize_and_chunk, chunkLoop, silence_points, chunkCut, min_def]
  · norm_num [actualDurations]

/-- Helper for C10: with both band bounds at least 1, the chunking loop
finishes once the fuel exceeds the remaining duration, because each
iteration advances `current` by at least 1 or jumps directly to the end. -/
theorem chunkLoop_isSome (points : List ℚ) (minLen maxLen duration : ℚ)
    (hmin : 1 ≤ minLen) (hmax : 1 ≤ maxLen) :
    ∀ (fuel : Nat) (current : ℚ), 1 ≤ fuel → duration - current + 1 ≤ (fuel : ℚ) →
      (chunkLoop points minLen maxLen duration fuel current).isSome := by
  intro fuel
  induction fuel with
  | zero => intro current h1 _; exact absurd h1 (by omega)
  | succ f ih =>
      intro current _ hfuel
      by_cases hc : current < duration
      · have hstep : current + 1 ≤ chunkCut points minLen maxLen duration current ∨
            chunkCut points minLen maxLen duration current = duration := by
          cases hfind : points.find?
              (fun sp => decide (current + minLen ≤ sp ∧ sp ≤ current + maxLen)) with
          | none =>
              simp only [chunkCut, hfind]
              rcases le_total (current + maxLen) duration with hle | hle
              · left; rw [min_eq_left hle]; linarith
              · right; exact min_eq_right hle
          | some sp =>
              have hfs := List.find?_some hfind
              simp only [decide_eq_true_eq] at hfs
              simp only [chunkCut, hfind]
              left; linarith [hfs.1]
        have hf1 : 1 ≤ f := by
          by_contra hcon
          have hf0 : f = 0 := by omega
          subst hf0
          push_cast at hfuel
          linarith
        have hrec : duration - chunkCut points minLen maxLen duration current + 1 ≤ (f : ℚ) := by
          rcases hstep with hge | heq
          · push_cast at hfuel ⊢
            linarith
          · rw [heq]
            have : (1 : ℚ) ≤ (f : ℚ) := by exact_mod_cast hf1
            linarith
        have hsome := ih (chunkCut points minLen maxLen duration current) hf1 hrec
        simp only [chunkLoop, if_pos hc]
        cases hres : chunkLoop points minLen maxLen duration f
            (chunkCut points minLen maxLen duration current) with
        | none => rw [hres] at hsome; simp at hsome
        | some rest => simp [hres]
      · simp [chunkLoop, if_neg hc]

/-- C10: for every probed duration and silence list, if `chunk_seconds ≥ 6`
(so the minimum band length T-5 is at least 1) the chunking loop
terminates: some finite fuel suffices for the loop to run to completion. -/
theorem C10_chunking_terminates (duration : ℚ) (silences : List (ℚ × ℚ))
    (cs : Int) (h : 6 ≤ cs) :
    ∃ fuel : Nat, (chunkLoop (silence_points silences) ((cs : ℚ) - 5) (cs : ℚ)
      duration fuel 0).isSome := by
  refine ⟨⌈duration⌉.toNat + 2, ?_⟩
  have hcast : (6 : ℚ) ≤ (cs : ℚ) := by exact_mod_cast h
  have hmin : (1 : ℚ) ≤ (cs : ℚ) - 5 := by linarith
  have hmax : (1 : ℚ) ≤ (cs : ℚ) := by linarith
  refine chunkLoop_isSome _ _ _ _ hmin hmax _ 0 (by omega) ?_
  have h1 : duration ≤ (⌈duration⌉ : ℚ) := Int.le_ceil duration
  have h2 : ((⌈duration⌉ : ℤ) : ℚ) ≤ ((⌈duration⌉.toNat : ℤ) : ℚ) := by
    exact_mod_cast Int.self_le_toNat _
  push_cast at h2 ⊢
  linarith

/-- C10 witness: a concrete 42-second duration with `chunk_seconds = 6`
terminates. -/
theorem C10_chunking_terminates_witness :
    ∃ fuel : Nat, (chunkLoop (silence_points []) (((6 : Int) : ℚ) - 5) ((6 : Int) : ℚ)
      42 fuel 0).isSome :=
  C10_chunking_terminates 42 [] 6 (by decide)

/-- C4 counterexample: with `retries = 3` and every attempt failing, the
code sleeps after every failed attempt *including the last* — 2s, 4s and
then 6s before raising — contradicting "no other backoff sleeps". -/
theorem C4_sleeps_after_last_attempt :
    (download_youtube (fun _ => .exitErr 1 "boom") 3).sleeps = [2, 4, 6] ∧
    (download_youtube (fun _ => .exitErr 1 "boom") 3).attemptsMade = 3 :=
  ⟨rfl, rfl⟩

/-- Helper: closed form of the retry loop when every attempt fails. -/
theorem fetchLoop_all_fail (behavior : Nat → Attempt)
    (hfail : ∀ i, attemptErr (behavior i) ≠ none) :
    ∀ (r a : Nat) (lastErr : Option String) (sleeps : List Nat) (made : Nat), 1 ≤ r →
      fetchLoop behavior a r lastErr sleeps made
        = ⟨made + r, sleeps ++ (List.range r).map (fun k => 2 * (a + k)),
            .error (attemptErr (behavior (a + r - 1)))⟩ := by
  intro r
  induction r with
  | zero => intro a lastErr sleeps made h1; exact absurd h1 (by omega)
  | succ r ih =>
      intro a lastErr sleeps made _
      obtain ⟨e, he⟩ : ∃ e, attemptErr (behavior a) = some e :=
        Option.ne_none_iff_exists'.mp (hfail a)
      rcases Nat.eq_zero_or_pos r with hr | hr
      · subst hr
        simp only [fetchLoop, he]
        simp [FetchTrace.mk.injEq, List.range_succ, he]
      · simp only [fetchLoop, he]
        rw [ih (a + 1) (some e) (sleeps ++ [2 * a]) (made + 1) hr]
        simp only [FetchTrace.mk.injEq]
        refine ⟨by omega, ?_, ?_⟩
        · rw [List.append_assoc]
          congr 1
          rw [List.range_succ_eq_map, List.map_cons, List.map_map, List.singleton_append]
          have hfg : (fun k => 2 * (a + 1 + k)) = (fun k => 2 * (a + k)) ∘ Nat.succ := by
            funext k
            simp only [Function.comp_apply]
            omega
          rw [hfg]
          norm_num
        · rw [show a + 1 + r - 1 = a + (r + 1) - 1 from by omega]

/-- C4 (amended): a Fetcher whose every attempt fails performs exactly
`max(1, min(10, retries))` attempts, sleeps `2 × k` seconds after the
k-th failed attempt for every k — including a final sleep after the last
attempt, so `retries = 3` sleeps 2s, 4s and 6s — and then raises a
download error carrying the last observed failure reason. -/
theorem C4_retry_backoff (behavior : Nat → Attempt) (retries : Int)
    (hfail : ∀ i, attemptErr (behavior i) ≠ none) :
    (download_youtube behavior retries).attemptsMade = (max 1 (min 10 retries)).toNat ∧
    (download_youtube behavior retries).sleeps
      = (List.range (max 1 (min 10 retries)).toNat).map (fun k => 2 * (k + 1)) ∧
    (download_youtube behavior retries).outcome
      = .error (attemptErr (behavior (max 1 (min 10 retries)).toNat)) := by
  have h1 : (1 : Int) ≤ max 1 (min 10 retries) := le_max_left _ _
  have hA : 1 ≤ (max 1 (min 10 retries)).toNat := by omega
  rw [download_youtube, fetchLoop_all_fail behavior hfail _ 1 none [] 0 hA]
  refine ⟨by simp, ?_, ?_⟩
  · show [] ++ (List.range (max 1 (min 10 retries)).toNat).map (fun k => 2 * (1 + k))
        = (List.range (max 1 (min 10 retries)).toNat).map (fun k => 2 * (k + 1))
    rw [List.nil_append]
    have hfg : (fun k => 2 * (1 + k)) = (fun k : Nat => 2 * (k + 1)) := by
      funext k; omega
    rw [hfg]
  · show Except.error (attemptErr (behavior (1 + (max 1 (min 10 retries)).toNat - 1)))
        = Except.error (attemptErr (behavior (max 1 (min 10 retries)).toNat))
    rw [show 1 + (max 1 (min 10 retries)).toNat - 1 = (max 1 (min 10 retries)).toNat
      from by omega]

/-- C4 witness: the amended statement at retries = 3 with a concrete
always-failing behaviour. -/
theorem C4_retry_backoff_witness :
    (download_youtube (fun _ => .exitErr 1 "x") 3).attemptsMade
        = (max 1 (min 10 (3 : Int))).toNat ∧
    (download_youtube (fun _ => .exitErr 1 "x") 3).sleeps
        = (List.range (max 1 (min 10 (3 : Int))).toNat).map (fun k => 2 * (k + 1)) ∧
    (download_youtube (fun _ => .exitErr 1 "x") 3).outcome
        = .error (attemptErr ((fun _ => Attempt.exitErr 1 "x")
            (max 1 (min 10 (3 : Int))).toNat)) :=
  C4_retry_backoff (fun _ => .exitErr 1 "x") 3 (fun _ => by simp [attemptErr])

/-- Helper: writing any job keeps the looked-up entry present. -/
theorem setJob_keeps (s : JobStore) (id2 id : Nat) (jnew : Job) (j : Job)
    (h : s id = some j) : ∃ j2, (setJob s id2 jnew) id = some j2 := by
  by_cases hid : id = id2
  · subst hid; exact ⟨jnew, setJob_self _ _ _⟩
  · exact ⟨j, by rw [setJob_other _ _ _ _ hid]; exact h⟩

/-- Helper: no registry operation removes an existing job record. -/
theorem applyOp_keeps (s : JobStore) (op : StoreOp) (id : Nat) (j : Job)
    (h : s id = some j) : ∃ j2, (applyOp s op) id = some j2 := by
  cases op with
  | create id2 src cs wh => exact setJob_keeps s id2 id _ j h
  | set_running id2 m =>
      cases hs : s id2 with
      | none => exact ⟨j, by simp only [applyOp, hs]; exact h⟩
      | some jt =>
          obtain ⟨j2, hj2⟩ := setJob_keeps s id2 id
            { jt with status := "running",
                      message := if truthy m then m else jt.message } j h
          exact ⟨j2, by simp only [applyOp, hs]; exact hj2⟩
  | update_progress id2 p m =>
      cases hs : s id2 with
      | none => exact ⟨j, by simp only [applyOp, hs]; exact h⟩
      | some jt =>
          obtain ⟨j2, hj2⟩ := setJob_keeps s id2 id
            { jt with progress := max 0 (min 1 p),
                      message := if truthy m then m else jt.message } j h
          exact ⟨j2, by simp only [applyOp, hs]; exact hj2⟩
  | complete id2 chunks td cs =>
      cases hs : s id2 with
      | none => exact ⟨j, by simp only [applyOp, hs]; exact h⟩
      | some jt =>
          obtain ⟨j2, hj2⟩ := setJob_keeps s id2 id
            { jt with status := "completed", progress := 1,
                      result := some ⟨chunks, td, cs⟩ } j h
          exact ⟨j2, by simp only [applyOp, hs]; exact hj2⟩
  | fail id2 e =>
      cases hs : s id2 with
      | none => exact ⟨j, by simp only [applyOp, hs]; exact h⟩
      | some jt =>
          obtain ⟨j2, hj2⟩ := setJob_keeps s id2 id
            { jt with status := "failed", message := some e } j h
          exact ⟨j2, by simp only [applyOp, hs]; exact hj2⟩

/-- Helper: the upload loop keeps the job record present. -/
theorem uploadLoop_keeps (id : Nat) (f : String → String) (total : Nat) :
    ∀ (list : List String) (idx : Nat) (s : JobStore) (j : Job), s id = some j →
      ∃ j2, (uploadLoop id f total list idx s).1 id = some j2 := by
  intro list
  induction list with
  | nil => intro idx s j h; exact ⟨j, h⟩
  | cons p rest ih =>
      intro idx s j h
      obtain ⟨j2, hj2⟩ := applyOp_keeps s
        (.update_progress id (uploadProgress idx total) (some (uploadMsg idx total))) id j h
      obtain ⟨j3, hj3⟩ := ih (idx + 1) _ j2 hj2
      exact ⟨j3, by simpa only [uploadLoop] using hj3⟩

/-- Helper: the upload loop collects the storage address of every
segment, in segment order. -/
theorem uploadLoop_uris (id : Nat) (f : String → String) (total : Nat) :
    ∀ (list : List String) (idx : Nat) (s : JobStore),
      (uploadLoop id f total list idx s).2.1 = list.map f := by
  intro list
  induction list with
  | nil => intro idx s; rfl
  | cons p rest ih =>
      intro idx s
      simp only [uploadLoop, List.map_cons]
      rw [ih]

/-- Helper: the upload loop reports `0.1 + 0.89 * (k / max 1 total)`
with its message for each consecutive upload. -/
theorem uploadLoop_trace (id : Nat) (f : String → String) (total : Nat) :
    ∀ (list : List String) (idx : Nat) (s : JobStore),
      (uploadLoop id f total list idx s).2.2
        = (List.range list.length).map
            (fun k => (uploadProgress (idx + k) total, uploadMsg (idx + k) total)) := by
  intro list
  induction list with
  | nil => intro idx s; rfl
  | cons p rest ih =>
      intro idx s
      simp only [uploadLoop, List.length_cons]
      rw [ih]
      rw [List.range_succ_eq_map, List.map_cons, List.map_map]
      have hfg : ((fun k => (uploadProgress (idx + k) total, uploadMsg (idx + k) total))
          ∘ Nat.succ)
          = fun k => (uploadProgress (idx + 1 + k) total, uploadMsg (idx + 1 + k) total) := by
        funext k
        simp only [Function.comp_apply]
        rw [show idx + Nat.succ k = idx + 1 + k from by omega]
      rw [hfg]
      simp

/-- Helper: effect of `complete` on an existing record. -/
theorem complete_after (s : JobStore) (id : Nat) (chunks : List String)
    (td : Option ℚ) (cs : Option Int) (j : Job) (h : s id = some j) :
    (applyOp s (.complete id chunks td cs)) id
      = some { j with status := "completed", progress := 1,
                      result := some ⟨chunks, td, cs⟩ } := by
  simp only [applyOp, h, setJob_self]

/-- C1: when fetch, probe, normalization, chunking and every per-segment
upload succeed, the job ends `completed` with progress 1.0 and a result
holding one storage address per segment in segment order, and the
progress updates are exactly 0.10 after the fetch, 0.15 before
normalizing, 0.50 after segmentation, and `0.1 + 0.89 * (k / total)`
after the k-th upload. -/
theorem C1_happy_path (s : JobStore) (id : Nat) (j : Job) (total_dur : Option ℚ)
    (segPaths : List String) (f : String → String) (defaultCs : Int)
    (h : s id = some j) :
    ((run_job_happy s id total_dur segPaths f defaultCs).1 id).map Job.status
        = some "completed" ∧
    ((run_job_happy s id total_dur segPaths f defaultCs).1 id).map Job.progress
        = some 1 ∧
    (((run_job_happy s id total_dur segPaths f defaultCs).1 id).bind Job.result).map
        JobResult.chunks = some (segPaths.map f) ∧
    (((run_job_happy s id total_dur segPaths f defaultCs).1 id).bind Job.result).map
        JobResult.total_duration_sec = some total_dur ∧
    (run_job_happy s id total_dur segPaths f defaultCs).2
        = expectedTrace segPaths.length := by
  obtain ⟨j1, hj1⟩ := applyOp_keeps s
    (.set_running id (some "downloading from YouTube")) id j h
  obtain ⟨j2, hj2⟩ := applyOp_keeps _
    (.update_progress id (1/10) (some "download complete")) id j1 hj1
  have hS2 : (storeAfterFetch s id) id = some j2 := hj2
  obtain ⟨j3, hj3⟩ := applyOp_keeps (storeAfterFetch s id)
    (.update_progress id (15/100) (some "normalizing audio")) id j2 hS2
  obtain ⟨j4, hj4⟩ := applyOp_keeps _
    (.update_progress id (1/2) (some "chunking complete; uploading")) id j3 hj3
  obtain ⟨j5, hj5⟩ := uploadLoop_keeps id f segPaths.length segPaths 1 _ j4 hj4
  have hfin := complete_after
    ((uploadLoop id f segPaths.length segPaths 1
      (applyOp (applyOp (storeAfterFetch s id)
        (.update_progress id (15/100) (some "normalizing audio")))
        (.update_progress id (1/2) (some "chunking complete; uploading")))).1)
    id
    ((uploadLoop id f segPaths.length segPaths 1
      (applyOp (applyOp (storeAfterFetch s id)
        (.update_progress id (15/100) (some "normalizing audio")))
        (.update_progress id (1/2) (some "chunking complete; uploading")))).2.1)
    total_dur (some (resolveChunkSeconds (storeAfterFetch s id id) defaultCs)) j5 hj5
  simp only [run_job_happy]
  refine ⟨?_, ?_, ?_, ?_, ?_⟩
  · rw [hfin]; rfl
  · rw [hfin]; rfl
  · rw [hfin]
    simp [uploadLoop_uris]
  · rw [hfin]
    simp
  · rw [uploadLoop_trace]
    simp only [expectedTrace]
    have hfg : (fun k => (uploadProgress (1 + k) segPaths.length,
        uploadMsg (1 + k) segPaths.length))
        = fun k => (uploadProgress (k + 1) segPaths.length,
            uploadMsg (k + 1) segPaths.length) := by
      funext k
      rw [Nat.add_comm 1 k]
    rw [hfg]

/-- C1 witness: a concrete two-segment happy-path run. -/
theorem C1_happy_path_witness :
    ((run_job_happy (runOps [StoreOp.create 0 "src" none none]) 0 (some 42) ["a", "b"]
        (fun p => String.append "gs://" p) 20).1 0).map Job.status = some "completed" ∧
    ((run_job_happy (runOps [StoreOp.create 0 "src" none none]) 0 (some 42) ["a", "b"]
        (fun p => String.append "gs://" p) 20).1 0).map Job.progress = some 1 ∧
    (((run_job_happy (runOps [StoreOp.create 0 "src" none none]) 0 (some 42) ["a", "b"]
        (fun p => String.append "gs://" p) 20).1 0).bind Job.result).map
        JobResult.chunks = some (["a", "b"].map (fun p => String.append "gs://" p)) ∧
    (((run_job_happy (runOps [StoreOp.create 0 "src" none none]) 0 (some 42) ["a", "b"]
        (fun p => String.append "gs://" p) 20).1 0).bind Job.result).map
        JobResult.total_duration_sec = some (some 42) ∧
    (run_job_happy (runOps [StoreOp.create 0 "src" none none]) 0 (some 42) ["a", "b"]
        (fun p => String.append "gs://" p) 20).2
        = expectedTrace (["a", "b"] : List String).length :=
  C1_happy_path _ 0 { job_id := 0, source_id := "src" } (some 42) ["a", "b"]
    (fun p => String.append "gs://" p) 20 rfl

end KACCP
